import Mathlib

/-!
Verification of the discord-voice-webapp chunk index and chunk streaming code.

The development shallowly embeds the relevant parts of `src/database.py`
(the `chunks` table helpers `register_chunk`, `get_chunks_for_user`,
`delete_chunk`) and `src/main.py` (the `serve_chunk` range streamer, the
`api_delete_chunk` endpoint, and the directory-name parsing shared by
`startup` and `_scan_and_register_all_chunks`).

Modelling conventions:
* The SQLite `chunks` table is a `List ChunkRow`; the primary key `id`
  column is the derived string `discord_id ++ ":" ++ date ++ ":" ++ filename`
  (`rowId`), exactly as `register_chunk` builds it.  `db.get(Chunk, id)`
  becomes `List.find?` on that key (primary keys are unique, so first
  match is the match).
* The filesystem is abstracted by boolean oracles: `existsOnDisk` models
  `os.path.exists`, `removeRaises` models whether `os.remove` raises
  `OSError`.  File contents are `List Nat` (byte lists).
* Fallible endpoints return a result structure carrying the HTTP status,
  the (unchanged or updated) index, and flags recording whether the
  filesystem or index was touched.
-/

/-- One row of the `chunks` table (src/database.py, class Chunk).
`created_at` is an abstract timestamp; the `id` column is derived by
`rowId` below and therefore not stored separately. -/
structure ChunkRow where
  discord_id : String
  date : String
  filename : String
  filepath : String
  created_at : Nat
  is_deleted : Bool
deriving DecidableEq, Repr

/-- The primary-key string `"{discord_id}:{date}:{filename}"` of a row. -/
def rowId (r : ChunkRow) : String :=
  r.discord_id ++ ":" ++ r.date ++ ":" ++ r.filename

/-- The chunk id built by `register_chunk` / `delete_chunk` from caller
arguments: `f"{discord_id}:{date}:{filename}"`. -/
def chunkId (discord_id date filename : String) : String :=
  discord_id ++ ":" ++ date ++ ":" ++ filename

/-- src/database.py `register_chunk` (lines 105-117): insert a chunk row
if no row with the same primary key exists; otherwise do nothing.
`now` stands for `datetime.utcnow()` used as the `created_at` default. -/
def registerChunk (db : List ChunkRow)
    (discord_id date filename filepath : String) (now : Nat) : List ChunkRow :=
  match db.find? (fun r => rowId r == chunkId discord_id date filename) with
  | some _ => db
  | none => db ++ [⟨discord_id, date, filename, filepath, now, false⟩]

/-- Mark the first row whose primary key is `cid` as deleted (the ORM
mutation `row.is_deleted = True` on the row returned by `db.get`). -/
def setDeletedFirst (cid : String) : List ChunkRow → List ChunkRow
  | [] => []
  | r :: rs =>
    if rowId r == cid then { r with is_deleted := true } :: rs
    else r :: setDeletedFirst cid rs

/-- Outcome of `delete_chunk`: the returned value, the updated table, the
path passed to `os.remove` (if the `os.path.exists` guard passed), and
whether the file was actually removed (removal may raise and be swallowed). -/
structure DeleteResult where
  ret : Option String
  db : List ChunkRow
  removeAttempted : Option String
  removed : Bool
deriving DecidableEq, Repr

/-- src/database.py `delete_chunk` (lines 139-160): look the row up by
primary key, return `None` if absent or owned by another user, otherwise
try to remove the file (an `OSError` is swallowed), mark the row deleted
and return its filepath. -/
def deleteChunk (db : List ChunkRow) (existsOnDisk removeRaises : String → Bool)
    (discord_id date filename : String) : DeleteResult :=
  match db.find? (fun r => rowId r == chunkId discord_id date filename) with
  | none => ⟨none, db, none, false⟩
  | some row =>
    if row.discord_id ≠ discord_id then ⟨none, db, none, false⟩
    else
      ⟨some row.filepath, setDeletedFirst (chunkId discord_id date filename) db,
       if existsOnDisk row.filepath then some row.filepath else none,
       existsOnDisk row.filepath && !removeRaises row.filepath⟩

/-! ### Directory-name parsing (src/main.py lines 51-57 and 73-79)

Both the startup scan and the background scanner run
`parts = user_dir.name.rsplit("_", 1); if len(parts) != 2: continue;
discord_id = parts[1]`. -/

/-- Split a character list at its LAST underscore: `some (before, after)`
when an underscore occurs, `none` otherwise.  Mirrors `rsplit("_", 1)`. -/
def rsplitLastAux : List Char → Option (List Char × List Char)
  | [] => none
  | c :: cs =>
    match rsplitLastAux cs with
    | some (l, r) => some (c :: l, r)
    | none => if c = '_' then some ([], cs) else none

/-- Python `s.rsplit("_", 1)`: a one- or two-element list of parts. -/
def rsplitUnderscore1 (s : String) : List String :=
  match rsplitLastAux s.data with
  | some (l, r) => [⟨l⟩, ⟨r⟩]
  | none => [s]

/-- The scanner's handling of one directory name: `none` means the
directory is skipped (`len(parts) != 2`), `some uid` means it is processed
with `discord_id = parts[1] = uid`. -/
def parseUserDir (name : String) : Option String :=
  match rsplitUnderscore1 name with
  | [_, uid] => some uid
  | _ => none

/-! ### Chunk streaming (src/main.py `serve_chunk`, lines 265-325)

The inner generator `iter_file(start, end)` reads the file in 256 KiB
slices.  `remaining = (end - start + 1) if end else None` uses Python
truthiness, so `end = None` AND `end = 0` both mean "no byte budget".
`f.read(n)` with negative `n` reads to end of file, which `pyRead`
reproduces. -/

/-- Python `f.read(n)` at position `pos` of a file with bytes `content`:
a negative count reads everything to end of file. -/
def pyRead (content : List Nat) (pos : Nat) (n : Int) : List Nat :=
  if n < 0 then content.drop pos else (content.drop pos).take n.toNat

/-- The `while True` loop of `iter_file`: `remaining = none` models
Python `None`.  Each pass computes `to_read`, reads, stops on empty read,
decrements a truthy budget, and stops once the budget is `<= 0`. -/
def iterLoop (content : List Nat) (pos : Nat) (remaining : Option Int) : List Nat :=
  let toRead : Int :=
    match remaining with
    | some r => if r = 0 then 262144 else min 262144 r
    | none => 262144
  let data := pyRead content pos toRead
  if h : data = [] then []
  else
    let rem' : Option Int :=
      match remaining with
      | some r => if r = 0 then some r else some (r - data.length)
      | none => none
    data ++
      (match rem' with
       | some r' => if r' ≤ 0 then [] else iterLoop content (pos + data.length) rem'
       | none => iterLoop content (pos + data.length) none)
termination_by content.length - pos
decreasing_by
  all_goals
    have hp : pos < content.length := by
      by_contra hge
      push_neg at hge
      have hd : content.drop pos = [] := List.drop_eq_nil_of_le hge
      exact h (by show pyRead content pos toRead = []; unfold pyRead; rw [hd]; simp)
    have hlen : 0 < data.length := List.length_pos.mpr h
    show content.length - (pos + data.length) < content.length - pos
    omega

/-- `iter_file(start, end)`: seek to `start`, set up the byte budget
(`None` when `end` is `None` or `0`), and run the loop. -/
def iterFile (content : List Nat) (start : Nat) (endOpt : Option Int) : List Nat :=
  let remaining : Option Int :=
    match endOpt with
    | none => none
    | some e => if e = 0 then none else some (e - (start : Int) + 1)
  iterLoop content start remaining

/-- Python `"/" in s` (single-character substring = character membership). -/
def hasSlash (s : String) : Bool := s.data.any (fun c => c = '/')

/-- Python `".." in s`: two consecutive dots somewhere in `s`. -/
def hasDotDotAux : List Char → Bool
  | [] => false
  | [_] => false
  | a :: b :: rest => (a = '.' && b = '.') || hasDotDotAux (b :: rest)

def hasDotDot (s : String) : Bool := hasDotDotAux s.data

/-- The path-traversal guard of `serve_chunk` (src/main.py line 272), in
the source's evaluation order. -/
def serveChunkPathBad (date filename : String) : Bool :=
  hasSlash filename || hasDotDot filename || hasSlash date || hasDotDot date

/-- Result of `serve_chunk`: HTTP status, `detail` of a raised
`HTTPException` (if any), streamed body, the `Content-Range` and
`Content-Length` headers (when set), and whether any filesystem access
(directory walk / stat / open) happened. -/
structure ServeResult where
  status : Nat
  detail : Option String
  body : List Nat
  contentRange : Option String
  contentLength : Option String
  fsAccessed : Bool
deriving DecidableEq, Repr

/-- src/main.py `serve_chunk` (lines 265-325).  `session` is the logged-in
user's id (from `request.session`), `findFile` abstracts the walk over
`RECORDINGS_PATH` returning the bytes of
`<user_dir>/chunks/<date>/<filename>` when that file exists, and `range`
is the parsed `Range` header: `some (start, some e)` for `bytes=start-e`,
`some (start, none)` for `bytes=start-` (empty end string), `none` when
no header was sent. -/
def serveChunk (session : Option String) (user_id date filename : String)
    (findFile : String → String → String → Option (List Nat))
    (range : Option (Nat × Option Nat)) : ServeResult :=
  match session with
  | none => ⟨401, some "Unauthorized", [], none, none, false⟩
  | some uid =>
    if uid ≠ user_id then ⟨403, some "Forbidden", [], none, none, false⟩
    else if serveChunkPathBad date filename then
      ⟨400, some "Invalid path", [], none, none, false⟩
    else
      match findFile user_id date filename with
      | none => ⟨404, some "Chunk not found", [], none, none, true⟩
      | some content =>
        let fileSize := content.length
        match range with
        | some (start, endStr) =>
          let e : Int :=
            match endStr with
            | some v => (v : Int)
            | none => (fileSize : Int) - 1
          ⟨206, none, iterFile content start (some e),
            some ("bytes " ++ toString start ++ "-" ++ toString e ++ "/"
              ++ toString fileSize),
            some (toString (e - (start : Int) + 1)), true⟩
        | none =>
          ⟨200, none, iterFile content 0 none, none,
            some (toString fileSize), true⟩

/-- The path-traversal guard of `api_delete_chunk` (src/main.py line 357):
`any(".." in x or "/" in x for x in (date, filename))`. -/
def deletePathBad (date filename : String) : Bool :=
  (hasDotDot date || hasSlash date) || (hasDotDot filename || hasSlash filename)

/-- Result of `api_delete_chunk`: status, exception detail, the JSON `ok`
flag, the table afterwards, whether the index was consulted, and the path
handed to `os.remove` (if any). -/
structure ApiDeleteResult where
  status : Nat
  detail : Option String
  ok : Bool
  db : List ChunkRow
  dbAccessed : Bool
  removeAttempted : Option String
deriving DecidableEq, Repr

/-- src/main.py `api_delete_chunk` (lines 344-365): auth, ownership and
path checks, then `delete_chunk`; a `None` result becomes a 404. -/
def apiDeleteChunk (session : Option String) (user_id date filename : String)
    (db : List ChunkRow) (existsOnDisk removeRaises : String → Bool) :
    ApiDeleteResult :=
  match session with
  | none => ⟨401, some "Unauthorized", false, db, false, none⟩
  | some uid =>
    if uid ≠ user_id then ⟨403, some "Forbidden", false, db, false, none⟩
    else if deletePathBad date filename then
      ⟨400, some "Invalid path", false, db, false, none⟩
    else
      let r := deleteChunk db existsOnDisk removeRaises user_id date filename
      match r.ret with
      | none => ⟨404, some "Chunk not found", false, r.db, true, r.removeAttempted⟩
      | some _ => ⟨200, none, true, r.db, true, r.removeAttempted⟩

/-! ### Listing chunks (src/database.py `get_chunks_for_user`, lines 120-136)

The SQL query filters on `discord_id` and `is_deleted = False` and orders
by `date` descending then `filename` ascending (SQLite compares TEXT
bytewise, i.e. by the `String` linear order).  The rows are then folded
into an ordered dict via `result.setdefault(row.date, []).append(...)`,
skipping rows whose file is missing on disk. -/

/-- Kernel-computable lexicographic comparison of character lists:
SQLite's bytewise TEXT comparison (UTF-8 byte order equals code-point
order, which equals this character-wise order). -/
def charListLt : List Char → List Char → Bool
  | _, [] => false
  | [], _ :: _ => true
  | a :: as, b :: bs =>
    if a < b then true else if b < a then false else charListLt as bs

theorem charListLt_iff_lex (x y : List Char) :
    charListLt x y = true ↔ List.Lex (· < ·) x y := by
  induction x generalizing y with
  | nil =>
    cases y with
    | nil => simp [charListLt]
    | cons b bs =>
      simp only [charListLt]
      exact iff_of_true trivial List.Lex.nil
  | cons a as ih =>
    cases y with
    | nil =>
      simp only [charListLt]
      exact iff_of_false (by simp) (List.Lex.not_nil_right _ _)
    | cons b bs =>
      simp only [charListLt]
      rcases lt_trichotomy a b with h | h | h
      · rw [if_pos h]
        exact iff_of_true rfl (List.Lex.rel h)
      · subst h
        rw [if_neg (lt_irrefl a), if_neg (lt_irrefl a), ih bs]
        exact List.Lex.cons_iff.symm
      · rw [if_neg (asymm h), if_pos h]
        constructor
        · intro hf; cases hf
        · intro hlex
          cases hlex with
          | cons h' => exact absurd rfl (ne_of_gt h)
          | rel h' => exact absurd h' (asymm h)

/-- Computable `<` on strings, agreeing with Mathlib's `String` order. -/
def strLtB (a b : String) : Bool := charListLt a.data b.data

/-- Computable `≤` on strings (`a ≤ b` iff `¬ b < a`). -/
def strLeB (a b : String) : Bool := !(strLtB b a)

theorem strLtB_iff (a b : String) : strLtB a b = true ↔ a < b := by
  rw [String.lt_iff_toList_lt]
  exact charListLt_iff_lex a.data b.data

theorem strLeB_iff (a b : String) : strLeB a b = true ↔ a ≤ b := by
  rw [strLeB]
  constructor
  · intro h
    by_contra hle
    rw [not_le] at hle
    rw [(strLtB_iff b a).mpr hle] at h
    cases h
  · intro h
    cases hq : strLtB b a with
    | false => rfl
    | true => exact absurd ((strLtB_iff b a).mp hq) (not_lt.mpr h)

/-- The `ORDER BY date DESC, filename ASC` relation on rows.  Within one
user's rows the key `(date, filename)` is unique (`uq_chunk`), so this
total preorder has no consequential ties. -/
def chunkOrder (a b : ChunkRow) : Prop :=
  b.date < a.date ∨ (a.date = b.date ∧ a.filename ≤ b.filename)

/-- Computable decision procedure for `chunkOrder`. -/
def chunkOrderB (a b : ChunkRow) : Bool :=
  strLtB b.date a.date || (a.date == b.date && strLeB a.filename b.filename)

theorem chunkOrderB_iff (a b : ChunkRow) :
    chunkOrderB a b = true ↔ chunkOrder a b := by
  unfold chunkOrderB chunkOrder
  simp [Bool.or_eq_true, Bool.and_eq_true, strLtB_iff, strLeB_iff]

instance : DecidableRel chunkOrder := fun a b =>
  decidable_of_iff (chunkOrderB a b = true) (chunkOrderB_iff a b)

instance : IsTotal ChunkRow chunkOrder where
  total a b := by
    unfold chunkOrder
    rcases lt_trichotomy a.date b.date with h | h | h
    · exact Or.inr (Or.inl h)
    · rcases le_total a.filename b.filename with hf | hf
      · exact Or.inl (Or.inr ⟨h, hf⟩)
      · exact Or.inr (Or.inr ⟨h.symm, hf⟩)
    · exact Or.inl (Or.inl h)

instance : IsTrans ChunkRow chunkOrder where
  trans a b c hab hbc := by
    unfold chunkOrder at *
    rcases hab with h1 | ⟨h1, h1f⟩ <;> rcases hbc with h2 | ⟨h2, h2f⟩
    · exact Or.inl (h2.trans h1)
    · exact Or.inl (h2 ▸ h1)
    · exact Or.inl (h1 ▸ h2)
    · exact Or.inr ⟨h1.trans h2, h1f.trans h2f⟩

/-- The rows the SQL query returns, in query order. -/
def dbQuery (db : List ChunkRow) (discord_id : String) : List ChunkRow :=
  List.insertionSort chunkOrder
    (db.filter (fun r => r.discord_id == discord_id && r.is_deleted == false))

/-- Python `result.setdefault(date, []).append(filename)` on an ordered
dict modelled as an association list: append to the bucket of an existing
key, else add a new key at the end. -/
def setdefaultAppend : List (String × List String) → String → String →
    List (String × List String)
  | [], d, f => [(d, [f])]
  | (k, v) :: rest, d, f =>
    if k = d then (k, v ++ [f]) :: rest
    else (k, v) :: setdefaultAppend rest d f

/-- src/database.py `get_chunks_for_user`: query, then group the rows
whose file still exists on disk by date. -/
def getChunksForUser (db : List ChunkRow) (existsOnDisk : String → Bool)
    (discord_id : String) : List (String × List String) :=
  (dbQuery db discord_id).foldl
    (fun acc r =>
      if existsOnDisk r.filepath then setdefaultAppend acc r.date r.filename
      else acc)
    []

/-! ### Quick sanity examples (concrete evaluations of the embedding) -/

example : rowId ⟨"u", "2024-01-01", "chunk_001.wav", "/p", 0, false⟩
    = "u:2024-01-01:chunk_001.wav" := by decide

example :
    (deleteChunk [⟨"u", "d", "f", "/p", 0, false⟩] (fun _ => true) (fun _ => false)
      "u" "d" "f").ret = some "/p" := by decide

example : rsplitUnderscore1 "alice_123" = ["alice", "123"] := by decide
example : rsplitUnderscore1 "abc_" = ["abc", ""] := by decide
example : rsplitUnderscore1 "noscore" = ["noscore"] := by decide
example : parseUserDir "_123" = some "123" := by decide

example :
    getChunksForUser
      [⟨"u", "2024-01-01", "chunk_002.wav", "/a2", 0, false⟩,
       ⟨"u", "2024-01-02", "chunk_001.wav", "/b1", 1, false⟩,
       ⟨"u", "2024-01-01", "chunk_001.wav", "/a1", 2, false⟩]
      (fun _ => true) "u"
    = [("2024-01-02", ["chunk_001.wav"]),
       ("2024-01-01", ["chunk_001.wav", "chunk_002.wav"])] := by decide

example : iterFile [10, 11, 12, 13, 14] 1 (some 3) = [11, 12, 13] := by
  rw [iterFile, iterLoop.eq_def]
  norm_num [pyRead]
  decide

example : iterFile [10, 11, 12, 13, 14] 1 (some 0) = [11, 12, 13, 14] := by
  rw [iterFile, iterLoop.eq_def]
  norm_num [pyRead]
  rw [iterLoop.eq_def]
  norm_num [pyRead]
  decide

/-! ## Helper lemmas shared by the claim theorems -/

/-- If the primary-key lookup succeeds, `register_chunk` is a no-op. -/
theorem registerChunk_found_eq (db : List ChunkRow) (did d f fp : String) (now : Nat)
    (h : (db.find? (fun r => rowId r == chunkId did d f)).isSome = true) :
    registerChunk db did d f fp now = db := by
  unfold registerChunk
  cases hf : db.find? (fun r => rowId r == chunkId did d f) with
  | none => rw [hf] at h; cases h
  | some r => simp only [hf]

/-- Marking a row deleted does not change its primary key, so the lookup
still finds it (now flagged). -/
theorem find?_setDeletedFirst (db : List ChunkRow) (cid : String) (row : ChunkRow)
    (h : db.find? (fun r => rowId r == cid) = some row) :
    (setDeletedFirst cid db).find? (fun r => rowId r == cid)
      = some { row with is_deleted := true } := by
  induction db with
  | nil => cases h
  | cons a rs ih =>
    by_cases ha : (rowId a == cid) = true
    · have hfind : List.find? (fun r => rowId r == cid) (a :: rs) = some a :=
        List.find?_cons_of_pos (p := fun r => rowId r == cid) rs ha
      rw [hfind] at h
      injection h with h'
      subst h'
      unfold setDeletedFirst
      rw [if_pos ha]
      exact List.find?_cons_of_pos (p := fun r => rowId r == cid) rs ha
    · have hstep : List.find? (fun r => rowId r == cid) (a :: rs)
          = List.find? (fun r => rowId r == cid) rs :=
        List.find?_cons_of_neg (p := fun r => rowId r == cid) rs ha
      rw [hstep] at h
      unfold setDeletedFirst
      rw [if_neg ha]
      have hstep2 : List.find? (fun r => rowId r == cid) (a :: setDeletedFirst cid rs)
          = List.find? (fun r => rowId r == cid) (setDeletedFirst cid rs) :=
        List.find?_cons_of_neg (p := fun r => rowId r == cid) (setDeletedFirst cid rs) ha
      rw [hstep2]
      exact ih h

/-- Evaluation of `delete_chunk` when the primary-key lookup finds a row
owned by the caller. -/
theorem deleteChunk_found_eq (db : List ChunkRow) (ex rm : String → Bool)
    (did d f : String) (row : ChunkRow)
    (hfind : db.find? (fun r => rowId r == chunkId did d f) = some row)
    (hown : row.discord_id = did) :
    deleteChunk db ex rm did d f =
      ⟨some row.filepath, setDeletedFirst (chunkId did d f) db,
       if ex row.filepath then some row.filepath else none,
       ex row.filepath && !rm row.filepath⟩ := by
  unfold deleteChunk
  rw [hfind]
  dsimp only
  rw [if_neg (not_not_intro hown)]

/-- Anatomy of a successful `delete_chunk` call: the row was found, is
owned by the caller, supplies the returned path, and gets flagged. -/
theorem deleteChunk_ret_some (db : List ChunkRow) (ex rm : String → Bool)
    (did d f fp : String)
    (h : (deleteChunk db ex rm did d f).ret = some fp) :
    ∃ row, db.find? (fun r => rowId r == chunkId did d f) = some row
      ∧ row.discord_id = did ∧ row.filepath = fp
      ∧ (deleteChunk db ex rm did d f).db = setDeletedFirst (chunkId did d f) db := by
  cases hf : db.find? (fun r => rowId r == chunkId did d f) with
  | none =>
    unfold deleteChunk at h
    rw [hf] at h
    exact absurd h (by simp)
  | some row =>
    by_cases hd : row.discord_id = did
    · have hres : deleteChunk db ex rm did d f =
          ⟨some row.filepath, setDeletedFirst (chunkId did d f) db,
           if ex row.filepath then some row.filepath else none,
           ex row.filepath && !rm row.filepath⟩ := by
        unfold deleteChunk
        rw [hf]
        dsimp only
        rw [if_neg (not_not_intro hd)]
      rw [hres] at h
      simp only [Option.some.injEq] at h
      exact ⟨row, rfl, hd, h, by rw [hres]⟩
    · have hres : deleteChunk db ex rm did d f = ⟨none, db, none, false⟩ := by
        unfold deleteChunk
        rw [hf]
        dsimp only
        rw [if_pos hd]
      rw [hres] at h
      exact absurd h (by simp)

/-! ## C2: `register_chunk` is idempotent on the composite key -/

/-- C2: if some row (deleted or not) already carries the composite key
`discord_id:date:filename`, `register_chunk` leaves the index unchanged:
no new row is inserted and no soft-deleted row is revived, so a repeated
reconciliation pass over the same files inserts nothing. -/
theorem registerChunk_existing_key_noop (db : List ChunkRow)
    (did d f fp : String) (now : Nat)
    (h : (db.find? (fun r => rowId r == chunkId did d f)).isSome = true) :
    registerChunk db did d f fp now = db :=
  registerChunk_found_eq db did d f fp now h

/-- Witness for C2 at a concrete index whose only row is soft-deleted:
re-registering the same key (even with a different filepath) changes
nothing, in particular the row stays deleted. -/
theorem registerChunk_existing_key_noop_witness :
    (([⟨"u", "2024-01-01", "chunk_001.wav", "/old", 0, true⟩] : List ChunkRow).find?
        (fun r => rowId r == chunkId "u" "2024-01-01" "chunk_001.wav")).isSome = true
    ∧ registerChunk [⟨"u", "2024-01-01", "chunk_001.wav", "/old", 0, true⟩]
        "u" "2024-01-01" "chunk_001.wav" "/new" 5
      = [⟨"u", "2024-01-01", "chunk_001.wav", "/old", 0, true⟩] :=
  ⟨by decide,
   registerChunk_existing_key_noop
     [⟨"u", "2024-01-01", "chunk_001.wav", "/old", 0, true⟩]
     "u" "2024-01-01" "chunk_001.wav" "/new" 5 (by decide)⟩

/-! ## C10: frame property of `register_chunk` on an existing key -/

/-- C10: when the composite key already has a row, every column of every
row of the index — filepath, created_at, is_deleted, discord_id, date,
filename — is exactly what it was before the call, and no row is added
or removed. -/
theorem registerChunk_existing_key_frame (db : List ChunkRow)
    (did d f fp : String) (now : Nat)
    (h : (db.find? (fun r => rowId r == chunkId did d f)).isSome = true) :
    (registerChunk db did d f fp now).map (fun r => r.filepath) = db.map (fun r => r.filepath)
    ∧ (registerChunk db did d f fp now).map (fun r => r.created_at) = db.map (fun r => r.created_at)
    ∧ (registerChunk db did d f fp now).map (fun r => r.is_deleted) = db.map (fun r => r.is_deleted)
    ∧ (registerChunk db did d f fp now).map (fun r => r.discord_id) = db.map (fun r => r.discord_id)
    ∧ (registerChunk db did d f fp now).map (fun r => r.date) = db.map (fun r => r.date)
    ∧ (registerChunk db did d f fp now).map (fun r => r.filename) = db.map (fun r => r.filename)
    ∧ (registerChunk db did d f fp now).length = db.length := by
  rw [registerChunk_found_eq db did d f fp now h]
  exact ⟨rfl, rfl, rfl, rfl, rfl, rfl, rfl⟩

/-- Witness for C10: registering an existing key with a different
filepath leaves all columns of the (deleted) row untouched. -/
theorem registerChunk_existing_key_frame_witness :
    (([⟨"u", "2024-01-01", "chunk_001.wav", "/old", 3, true⟩] : List ChunkRow).find?
        (fun r => rowId r == chunkId "u" "2024-01-01" "chunk_001.wav")).isSome = true
    ∧ (registerChunk [⟨"u", "2024-01-01", "chunk_001.wav", "/old", 3, true⟩]
        "u" "2024-01-01" "chunk_001.wav" "/new" 9).map (fun r => r.filepath) = ["/old"] :=
  ⟨by decide, by
    have h := registerChunk_existing_key_frame
      [⟨"u", "2024-01-01", "chunk_001.wav", "/old", 3, true⟩]
      "u" "2024-01-01" "chunk_001.wav" "/new" 9 (by decide)
    rw [h.1]
    decide⟩

/-! ## C7: `delete_chunk` on a missing or foreign row -/

/-- C7: whenever no row carries the composite key, or the found row's
stored `discord_id` differs from the caller's, `delete_chunk` returns
`None` and performs no file removal and no index mutation — the result
is identical in both cases, so callers cannot tell them apart. -/
theorem deleteChunk_unfound_or_foreign (db : List ChunkRow)
    (ex rm : String → Bool) (did d f : String)
    (h : ∀ row, db.find? (fun r => rowId r == chunkId did d f) = some row →
      row.discord_id ≠ did) :
    deleteChunk db ex rm did d f = ⟨none, db, none, false⟩ := by
  cases hf : db.find? (fun r => rowId r == chunkId did d f) with
  | none =>
    unfold deleteChunk
    rw [hf]
  | some row =>
    unfold deleteChunk
    rw [hf]
    dsimp only
    rw [if_pos (h row hf)]

/-- Witness for C7 in the reachable "wrong owner" case: the key
`"a:b" : "c" : "f"` collides with the row registered by user `"a"` for
date `"b:c"`, the ownership check fails, and nothing changes. -/
theorem deleteChunk_unfound_or_foreign_witness :
    deleteChunk [⟨"a", "b:c", "f", "/p", 7, false⟩] (fun _ => true) (fun _ => false)
        "a:b" "c" "f"
      = ⟨none, [⟨"a", "b:c", "f", "/p", 7, false⟩], none, false⟩ := by
  apply deleteChunk_unfound_or_foreign
  intro row hrow
  have heval : ([⟨"a", "b:c", "f", "/p", 7, false⟩] : List ChunkRow).find?
      (fun r => rowId r == chunkId "a:b" "c" "f")
      = some ⟨"a", "b:c", "f", "/p", 7, false⟩ := by decide
  rw [heval] at hrow
  injection hrow with h2
  rw [← h2]
  decide

/-! ## C6: file-removal failure never blocks the flag transition -/

/-- C6: for every found, owner-matching row, and for EVERY behaviour of
`os.path.exists` and `os.remove` (file absent, removal raising `OSError`,
or clean removal), `delete_chunk` still returns the stored filepath and
the row is flagged `is_deleted` in the resulting index. -/
theorem deleteChunk_flag_despite_remove_failure (db : List ChunkRow)
    (ex rm : String → Bool) (did d f : String) (row : ChunkRow)
    (hfind : db.find? (fun r => rowId r == chunkId did d f) = some row)
    (hown : row.discord_id = did) :
    (deleteChunk db ex rm did d f).ret = some row.filepath ∧
    (deleteChunk db ex rm did d f).db.find? (fun r => rowId r == chunkId did d f)
      = some { row with is_deleted := true } := by
  have hres : deleteChunk db ex rm did d f =
      ⟨some row.filepath, setDeletedFirst (chunkId did d f) db,
       if ex row.filepath then some row.filepath else none,
       ex row.filepath && !rm row.filepath⟩ := by
    unfold deleteChunk
    rw [hfind]
    dsimp only
    rw [if_neg (not_not_intro hown)]
  rw [hres]
  exact ⟨rfl, find?_setDeletedFirst db _ row hfind⟩

/-- Witness for C6 with the harshest oracle: the file "exists" but
`os.remove` raises — the filepath is still returned and the row is still
flagged deleted. -/
theorem deleteChunk_flag_despite_remove_failure_witness :
    (deleteChunk [⟨"u", "2024-01-01", "chunk_001.wav", "/p", 0, false⟩]
        (fun _ => true) (fun _ => true) "u" "2024-01-01" "chunk_001.wav").ret = some "/p"
    ∧ (deleteChunk [⟨"u", "2024-01-01", "chunk_001.wav", "/p", 0, false⟩]
        (fun _ => true) (fun _ => true) "u" "2024-01-01" "chunk_001.wav").db.find?
        (fun r => rowId r == chunkId "u" "2024-01-01" "chunk_001.wav")
      = some ⟨"u", "2024-01-01", "chunk_001.wav", "/p", 0, true⟩ :=
  deleteChunk_flag_despite_remove_failure
    [⟨"u", "2024-01-01", "chunk_001.wav", "/p", 0, false⟩]
    (fun _ => true) (fun _ => true) "u" "2024-01-01" "chunk_001.wav"
    ⟨"u", "2024-01-01", "chunk_001.wav", "/p", 0, false⟩ (by decide) (by decide)

/-! ## C1: deleting the same chunk twice

The claim says the second call returns `NotFound` (`None`).  It does not:
`delete_chunk` looks the row up by PRIMARY KEY (`db.get`) and never
consults `is_deleted`, so the soft-deleted row is found again, its
ownership still matches, and the filepath is returned a second time. -/

/-- Counterexample to C1 as stated: after a successful delete, a second
`delete_chunk` with the same `(user_id, date, filename)` again returns
the filepath — not `None`. -/
theorem deleteChunk_second_call_counterexample :
    (deleteChunk [⟨"u", "2024-01-01", "chunk_001.wav", "/p", 0, false⟩]
        (fun _ => true) (fun _ => false) "u" "2024-01-01" "chunk_001.wav").ret
      = some "/p"
    ∧ (deleteChunk
        (deleteChunk [⟨"u", "2024-01-01", "chunk_001.wav", "/p", 0, false⟩]
          (fun _ => true) (fun _ => false) "u" "2024-01-01" "chunk_001.wav").db
        (fun _ => false) (fun _ => false) "u" "2024-01-01" "chunk_001.wav").ret
      = some "/p"
    ∧ (deleteChunk
        (deleteChunk [⟨"u", "2024-01-01", "chunk_001.wav", "/p", 0, false⟩]
          (fun _ => true) (fun _ => false) "u" "2024-01-01" "chunk_001.wav").db
        (fun _ => false) (fun _ => false) "u" "2024-01-01" "chunk_001.wav").ret
      ≠ none := by decide

/-- C1 amended: deletion is still one-way and idempotent in effect, but a
second `delete_chunk` for the same identity finds the soft-deleted row
again (lookup is by primary key, ignoring `is_deleted`) and returns the
same filepath; the row simply stays flagged deleted. -/
theorem deleteChunk_second_call_returns_filepath (db : List ChunkRow)
    (ex1 rm1 ex2 rm2 : String → Bool) (did d f fp : String)
    (h : (deleteChunk db ex1 rm1 did d f).ret = some fp) :
    (deleteChunk (deleteChunk db ex1 rm1 did d f).db ex2 rm2 did d f).ret = some fp
    ∧ ∃ row', (deleteChunk (deleteChunk db ex1 rm1 did d f).db ex2 rm2 did d f).db.find?
        (fun r => rowId r == chunkId did d f) = some row' ∧ row'.is_deleted = true := by
  obtain ⟨row, hf, hown, hfp, hdb⟩ := deleteChunk_ret_some db ex1 rm1 did d f fp h
  have hf2 : (deleteChunk db ex1 rm1 did d f).db.find?
      (fun r => rowId r == chunkId did d f) = some { row with is_deleted := true } := by
    rw [hdb]
    exact find?_setDeletedFirst db _ row hf
  have hown2 : ({ row with is_deleted := true } : ChunkRow).discord_id = did := hown
  have hres2 := deleteChunk_found_eq (deleteChunk db ex1 rm1 did d f).db ex2 rm2
    did d f { row with is_deleted := true } hf2 hown2
  rw [hres2]
  constructor
  · show some row.filepath = some fp
    rw [hfp]
  · exact ⟨{ row with is_deleted := true },
      find?_setDeletedFirst (deleteChunk db ex1 rm1 did d f).db _
        { row with is_deleted := true } hf2, rfl⟩

/-- Witness for the amended C1 at a concrete one-row index. -/
theorem deleteChunk_second_call_returns_filepath_witness :
    (deleteChunk
        (deleteChunk [⟨"u", "2024-01-01", "chunk_001.wav", "/p", 0, false⟩]
          (fun _ => true) (fun _ => false) "u" "2024-01-01" "chunk_001.wav").db
        (fun _ => false) (fun _ => false) "u" "2024-01-01" "chunk_001.wav").ret
      = some "/p"
    ∧ ∃ row', (deleteChunk
        (deleteChunk [⟨"u", "2024-01-01", "chunk_001.wav", "/p", 0, false⟩]
          (fun _ => true) (fun _ => false) "u" "2024-01-01" "chunk_001.wav").db
        (fun _ => false) (fun _ => false) "u" "2024-01-01" "chunk_001.wav").db.find?
        (fun r => rowId r == chunkId "u" "2024-01-01" "chunk_001.wav")
      = some row' ∧ row'.is_deleted = true :=
  deleteChunk_second_call_returns_filepath
    [⟨"u", "2024-01-01", "chunk_001.wav", "/p", 0, false⟩]
    (fun _ => true) (fun _ => false) (fun _ => false) (fun _ => false)
    "u" "2024-01-01" "chunk_001.wav" "/p" (by decide)

/-! ## C5: which directory names does the scanner skip?

The claim says a directory is skipped whenever `rsplit("_", 1)` does not
yield exactly two NON-EMPTY parts.  The code only checks
`len(parts) != 2`, and `rsplit` happily returns an empty part, so e.g.
`"abc_"` (empty user id) and `"_123"` (empty display name) are processed,
not skipped. -/

/-- Counterexample to C5 as stated: `"abc_"` splits into two parts whose
second is empty, yet the directory is NOT skipped — it is processed with
`discord_id = ""`. -/
theorem parseUserDir_empty_part_counterexample :
    rsplitUnderscore1 "abc_" = ["abc", ""]
    ∧ parseUserDir "abc_" = some ""
    ∧ parseUserDir "abc_" ≠ none
    ∧ parseUserDir "_123" = some "123" := by decide

/-- `rsplit("_", 1)` produces a single part exactly when the name has no
underscore. -/
theorem rsplitLastAux_none_iff (cs : List Char) :
    rsplitLastAux cs = none ↔ '_' ∉ cs := by
  induction cs with
  | nil => simp [rsplitLastAux]
  | cons c cs ih =>
    cases h : rsplitLastAux cs with
    | some p =>
      obtain ⟨l, r⟩ := p
      apply iff_of_false
      · unfold rsplitLastAux
        rw [h]
        simp
      · intro hnot
        have hmem : '_' ∈ cs := by
          by_contra hn
          rw [ih.mpr hn] at h
          cases h
        exact hnot (List.mem_cons_of_mem c hmem)
    | none =>
      by_cases hc : c = '_'
      · subst hc
        apply iff_of_false
        · unfold rsplitLastAux
          rw [h]
          simp
        · intro hnot
          exact hnot (List.mem_cons_self _ _)
      · apply iff_of_true
        · unfold rsplitLastAux
          rw [h]
          simp [hc]
        · intro hmem
          rcases List.mem_cons.mp hmem with h1 | h1
          · exact hc h1.symm
          · exact absurd h1 (ih.mp h)

/-- C5 amended: the scanner (startup and background alike run the same
`rsplit`/`len != 2` test) skips a directory iff its name contains NO
underscore at all; a name with an empty display-name or user-id part is
still processed, with the empty string taken as that part. -/
theorem parseUserDir_none_iff_no_underscore (name : String) :
    parseUserDir name = none ↔ '_' ∉ name.data := by
  unfold parseUserDir rsplitUnderscore1
  cases h : rsplitLastAux name.data with
  | none =>
    apply iff_of_true
    · rfl
    · exact (rsplitLastAux_none_iff _).mp h
  | some p =>
    obtain ⟨l, r⟩ := p
    apply iff_of_false
    · simp
    · intro hnot
      have h2 : rsplitLastAux name.data = none := (rsplitLastAux_none_iff _).mpr hnot
      rw [h] at h2
      cases h2

/-! ## C8: path traversal is rejected before any access -/

/-- C8: for an authenticated, owner-matching request whose `date` or
`filename` contains `".."` or `"/"`, both the chunk media endpoint and
the deletion endpoint answer 400 "Invalid path" with no filesystem access,
no index access, no index mutation and no file removal. -/
theorem traversal_rejected_before_access (uid date filename : String)
    (findFile : String → String → String → Option (List Nat))
    (range : Option (Nat × Option Nat)) (db : List ChunkRow)
    (ex rm : String → Bool)
    (h : hasDotDot date = true ∨ hasSlash date = true
       ∨ hasDotDot filename = true ∨ hasSlash filename = true) :
    serveChunk (some uid) uid date filename findFile range
      = ⟨400, some "Invalid path", [], none, none, false⟩
    ∧ apiDeleteChunk (some uid) uid date filename db ex rm
      = ⟨400, some "Invalid path", false, db, false, none⟩ := by
  have hserve : serveChunkPathBad date filename = true := by
    unfold serveChunkPathBad
    rcases h with h | h | h | h <;> simp [h]
  have hdel : deletePathBad date filename = true := by
    unfold deletePathBad
    rcases h with h | h | h | h <;> simp [h]
  constructor
  · unfold serveChunk
    dsimp only
    rw [if_neg (not_not_intro rfl), if_pos hserve]
  · unfold apiDeleteChunk
    dsimp only
    rw [if_neg (not_not_intro rfl), if_pos hdel]

/-- Witness for C8: a classic `../../etc/passwd` filename is rejected with
status 400 even though the oracle says the file exists and the index has a
matching row. -/
theorem traversal_rejected_before_access_witness :
    serveChunk (some "u") "u" "2024-01-01" "../../etc/passwd"
        (fun _ _ _ => some [1, 2, 3]) none
      = ⟨400, some "Invalid path", [], none, none, false⟩
    ∧ apiDeleteChunk (some "u") "u" "2024-01-01" "../../etc/passwd"
        [⟨"u", "2024-01-01", "chunk_001.wav", "/p", 0, false⟩]
        (fun _ => true) (fun _ => false)
      = ⟨400, some "Invalid path", false,
         [⟨"u", "2024-01-01", "chunk_001.wav", "/p", 0, false⟩], false, none⟩ :=
  traversal_rejected_before_access "u" "2024-01-01" "../../etc/passwd"
    (fun _ _ _ => some [1, 2, 3]) none
    [⟨"u", "2024-01-01", "chunk_001.wav", "/p", 0, false⟩]
    (fun _ => true) (fun _ => false) (by decide)

/-! ## Streaming lemmas for the range handler (C3, C9) -/

theorem take_length_append_drop (l : List Nat) (n : Nat) :
    l.take n ++ l.drop ((l.take n).length) = l := by
  rw [List.length_take]
  rcases le_or_lt n l.length with h | h
  · rw [min_eq_left h, List.take_append_drop]
  · rw [min_eq_right h.le, List.drop_length, List.take_of_length_le h.le, List.append_nil]

/-- With a positive budget `r` that fits into one 256 KiB read and into
the rest of the file, the loop streams exactly `r` bytes from `pos`. -/
theorem iterLoop_budget_le (content : List Nat) (pos : Nat) (r : Int)
    (h1 : 0 < r) (h2 : r ≤ 262144) (h3 : r.toNat ≤ content.length - pos) :
    iterLoop content pos (some r) = (content.drop pos).take r.toNat := by
  have hlen : ((content.drop pos).take r.toNat).length = r.toNat := by
    rw [List.length_take, List.length_drop]
    omega
  have hne : (content.drop pos).take r.toNat ≠ [] := by
    intro h0
    rw [h0] at hlen
    simp at hlen
    omega
  have hr0 : ¬ (r = 0) := by omega
  have hneg : ¬ (r < 0) := by omega
  have hmin : min (262144 : Int) r = r := min_eq_right h2
  rw [iterLoop.eq_def]
  simp only [hr0, if_false, ite_false, hmin, pyRead, hneg, dif_neg hne, hlen]
  have hz : r - (r.toNat : Int) = 0 := by omega
  rw [hz]
  simp

/-- With no byte budget (`remaining = None`) the loop streams everything
from `pos` to end of file, 256 KiB at a time. -/
theorem iterLoop_none_eq_drop (content : List Nat) (pos : Nat) :
    iterLoop content pos none = content.drop pos := by
  suffices hgen : ∀ k q, content.length - q ≤ k →
      iterLoop content q none = content.drop q from
    hgen (content.length - pos) pos le_rfl
  intro k
  induction k with
  | zero =>
    intro q hk
    have hd : content.drop q = [] := List.drop_eq_nil_of_le (by omega)
    rw [iterLoop.eq_def]
    simp [pyRead, hd]
  | succ k ih =>
    intro q hk
    by_cases hd : content.drop q = []
    · rw [iterLoop.eq_def]
      simp [pyRead, hd]
    · have hq : q < content.length := by
        by_contra hge
        push_neg at hge
        exact hd (List.drop_eq_nil_of_le hge)
      have hne : (content.drop q).take (Int.toNat 262144) ≠ [] := by
        intro h0
        have h1 : ((content.drop q).take (Int.toNat 262144)).length = 0 := by
          rw [h0]; rfl
        rw [List.length_take, List.length_drop] at h1
        omega
      have hlen1 : 0 < ((content.drop q).take (Int.toNat 262144)).length :=
        List.length_pos.mpr hne
      have hrec : iterLoop content
          (q + ((content.drop q).take (Int.toNat 262144)).length) none
          = content.drop (q + ((content.drop q).take (Int.toNat 262144)).length) := by
        apply ih
        omega
      rw [iterLoop.eq_def]
      simp only [pyRead, show ¬ ((262144 : Int) < 0) by norm_num, ite_false, if_false,
        dif_neg hne]
      rw [hrec]
      rw [← List.drop_drop]
      exact take_length_append_drop (content.drop q) (Int.toNat 262144)

/-- Evaluation of `serve_chunk` for an authenticated owner whose path
passes validation, the file is found, and a `bytes=start-ev` range header
was sent. -/
theorem serveChunk_found_range_eq (content : List Nat) (uid date fn : String)
    (findFile : String → String → String → Option (List Nat))
    (start ev : Nat)
    (hok : serveChunkPathBad date fn = false)
    (hfind : findFile uid date fn = some content) :
    serveChunk (some uid) uid date fn findFile (some (start, some ev)) =
      ⟨206, none, iterFile content start (some ((ev : Nat) : Int)),
        some ("bytes " ++ toString start ++ "-" ++ toString ((ev : Nat) : Int) ++ "/"
          ++ toString content.length),
        some (toString (((ev : Nat) : Int) - (start : Int) + 1)), true⟩ := by
  unfold serveChunk
  dsimp only
  rw [if_neg (not_not_intro rfl)]
  rw [if_neg (by simp [hok])]
  rw [hfind]

/-! ## C9: a parsed range end of 0 defeats the byte budget -/

/-- C9: when the parsed end value is `0` (request `bytes=start-0`, e.g.
`bytes=0-0`), `remaining = (end - start + 1) if end else None` takes the
falsy branch, so the loop streams EVERY byte from `start` to end of file,
while `Content-Length` still advertises `end - start + 1` bytes; body
length and advertised length disagree whenever more than one byte lies at
or past `start`. -/
theorem serveChunk_end_zero_streams_tail (content : List Nat)
    (uid date fn : String)
    (findFile : String → String → String → Option (List Nat)) (start : Nat)
    (hok : serveChunkPathBad date fn = false)
    (hfind : findFile uid date fn = some content) :
    (serveChunk (some uid) uid date fn findFile (some (start, some 0))).status = 206
    ∧ (serveChunk (some uid) uid date fn findFile (some (start, some 0))).body
        = content.drop start
    ∧ (serveChunk (some uid) uid date fn findFile (some (start, some 0))).contentLength
        = some (toString ((0 : Int) - (start : Int) + 1))
    ∧ (start + 1 < content.length →
        (((serveChunk (some uid) uid date fn findFile
            (some (start, some 0))).body.length : Int))
          ≠ (0 : Int) - (start : Int) + 1) := by
  have hres := serveChunk_found_range_eq content uid date fn findFile start 0 hok hfind
  have hcast : iterFile content start (some ((0 : Nat) : Int))
      = iterLoop content start none := by
    unfold iterFile
    norm_num
  have hbody : iterFile content start (some ((0 : Nat) : Int)) = content.drop start := by
    rw [hcast]
    exact iterLoop_none_eq_drop content start
  refine ⟨by rw [hres], ?_, by rw [hres]; norm_num, ?_⟩
  · rw [hres]
    exact hbody
  · intro hlt
    rw [hres]
    show ((iterFile content start (some ((0 : Nat) : Int))).length : Int) ≠ _
    rw [hbody, List.length_drop]
    omega

/-- Witness for C9: a three-byte file requested with `bytes=0-0` answers
`Content-Length: 1` but streams all three bytes. -/
theorem serveChunk_end_zero_streams_tail_witness :
    (serveChunk (some "u") "u" "2024-01-01" "chunk_001.wav"
        (fun _ _ _ => some [5, 6, 7]) (some (0, some 0))).status = 206
    ∧ (serveChunk (some "u") "u" "2024-01-01" "chunk_001.wav"
        (fun _ _ _ => some [5, 6, 7]) (some (0, some 0))).body = [5, 6, 7]
    ∧ (serveChunk (some "u") "u" "2024-01-01" "chunk_001.wav"
        (fun _ _ _ => some [5, 6, 7]) (some (0, some 0))).contentLength
        = some (toString ((0 : Int) - ((0 : Nat) : Int) + 1))
    ∧ (0 + 1 < ([5, 6, 7] : List Nat).length →
        (((serveChunk (some "u") "u" "2024-01-01" "chunk_001.wav"
            (fun _ _ _ => some [5, 6, 7]) (some (0, some 0))).body.length : Int))
          ≠ (0 : Int) - ((0 : Nat) : Int) + 1) :=
  serveChunk_end_zero_streams_tail [5, 6, 7] "u" "2024-01-01" "chunk_001.wav"
    (fun _ _ _ => some [5, 6, 7]) 0 (by decide) rfl

/-! ## C3: a well-formed in-bounds range request -/

/-- C3: `bytes=100-199` on a 1000-byte file yields status 206,
`Content-Range: bytes 100-199/1000`, `Content-Length: 100`, and the body
is exactly the 100 bytes of the file at offsets 100..199. -/
theorem serveChunk_range_100_199 (content : List Nat) (uid date fn : String)
    (findFile : String → String → String → Option (List Nat))
    (hlen : content.length = 1000)
    (hok : serveChunkPathBad date fn = false)
    (hfind : findFile uid date fn = some content) :
    serveChunk (some uid) uid date fn findFile (some (100, some 199)) =
      ⟨206, none, (content.drop 100).take 100,
        some "bytes 100-199/1000", some "100", true⟩
    ∧ ((content.drop 100).take 100).length = 100 := by
  constructor
  · rw [serveChunk_found_range_eq content uid date fn findFile 100 199 hok hfind, hlen]
    have hcast : iterFile content 100 (some ((199 : Nat) : Int))
        = iterLoop content 100 (some 100) := by
      unfold iterFile
      norm_num
    rw [hcast]
    rw [iterLoop_budget_le content 100 100 (by norm_num) (by norm_num) (by omega)]
    rfl
  · rw [List.length_take, List.length_drop, hlen]
    norm_num

/-- Witness for C3 on the all-zero 1000-byte file. -/
theorem serveChunk_range_100_199_witness :
    serveChunk (some "u") "u" "2024-01-01" "chunk_001.wav"
        (fun _ _ _ => some (List.replicate 1000 0)) (some (100, some 199)) =
      ⟨206, none, ((List.replicate 1000 (0 : Nat)).drop 100).take 100,
        some "bytes 100-199/1000", some "100", true⟩
    ∧ (((List.replicate 1000 (0 : Nat)).drop 100).take 100).length = 100 :=
  serveChunk_range_100_199 (List.replicate 1000 0) "u" "2024-01-01" "chunk_001.wav"
    (fun _ _ _ => some (List.replicate 1000 0)) (List.length_replicate 1000 0) (by decide) rfl

/-! ## Ordering lemmas for `get_chunks_for_user` (C4) -/

/-- Keys of the accumulator after a `setdefault`-append: unchanged when
the date is already a key, extended at the END otherwise (insertion order
of a Python dict). -/
theorem sda_keys (acc : List (String × List String)) (d f : String) :
    (setdefaultAppend acc d f).map Prod.fst =
      if d ∈ acc.map Prod.fst then acc.map Prod.fst
      else acc.map Prod.fst ++ [d] := by
  induction acc with
  | nil => simp [setdefaultAppend]
  | cons p rest ih =>
    obtain ⟨k, v⟩ := p
    by_cases hk : k = d
    · subst hk
      simp [setdefaultAppend]
    · have hdk : ¬ d = k := fun h => hk h.symm
      by_cases hm : d ∈ rest.map Prod.fst
      · have hmem : d ∈ (k :: rest.map Prod.fst) := List.mem_cons_of_mem _ hm
        simp only [setdefaultAppend, if_neg hk, List.map_cons, ih, if_pos hm]
        rw [if_pos hmem]
      · have hmem : ¬ d ∈ (k :: rest.map Prod.fst) := by
          simp [List.mem_cons, hm, hdk]
        simp only [setdefaultAppend, if_neg hk, List.map_cons, ih, if_neg hm]
        rw [if_neg hmem]
        rfl

/-- Where an entry of the accumulator can come from after a
`setdefault`-append. -/
theorem sda_mem (acc : List (String × List String)) (d f : String)
    (q : String × List String) (hq : q ∈ setdefaultAppend acc d f) :
    q ∈ acc
    ∨ (∃ v, (d, v) ∈ acc ∧ q = (d, v ++ [f]))
    ∨ (q = (d, [f]) ∧ d ∉ acc.map Prod.fst) := by
  induction acc with
  | nil =>
    simp only [setdefaultAppend, List.mem_singleton] at hq
    right; right
    exact ⟨hq, by simp⟩
  | cons p rest ih =>
    obtain ⟨k, v⟩ := p
    by_cases hk : k = d
    · subst hk
      simp only [setdefaultAppend, if_pos rfl] at hq
      rcases List.mem_cons.mp hq with h1 | h1
      · right; left
        exact ⟨v, List.mem_cons_self _ _, h1⟩
      · left
        exact List.mem_cons_of_mem _ h1
    · simp only [setdefaultAppend, if_neg hk] at hq
      rcases List.mem_cons.mp hq with h1 | h1
      · left
        rw [h1]
        exact List.mem_cons_self _ _
      · rcases ih h1 with h2 | ⟨v2, hv2, hq2⟩ | ⟨hq2, hnm⟩
        · left
          exact List.mem_cons_of_mem _ h2
        · right; left
          exact ⟨v2, List.mem_cons_of_mem _ hv2, hq2⟩
        · right; right
          refine ⟨hq2, ?_⟩
          simp only [List.map_cons, List.mem_cons]
          rintro (h3 | h3)
          · exact hk h3.symm
          · exact hnm h3

/-- Invariant of the grouping fold: processing rows that are sorted by
`chunkOrder` (date descending, then filename ascending) keeps the
accumulator's keys strictly descending and every bucket ascending. -/
theorem foldChunks_ordered (ex : String → Bool) (rows : List ChunkRow) :
    ∀ (acc : List (String × List String)),
      rows.Pairwise chunkOrder →
      (acc.map Prod.fst).Pairwise (fun a b => b < a) →
      (∀ p ∈ acc, p.2.Pairwise (fun a b : String => a ≤ b)) →
      (∀ r ∈ rows, ∀ p ∈ acc, r.date ≤ p.1) →
      (∀ r ∈ rows, ∀ p ∈ acc, p.1 = r.date → ∀ g ∈ p.2, g ≤ r.filename) →
      ((rows.foldl
          (fun acc r =>
            if ex r.filepath then setdefaultAppend acc r.date r.filename else acc)
          acc).map Prod.fst).Pairwise (fun a b => b < a)
      ∧ ∀ p ∈ rows.foldl
          (fun acc r =>
            if ex r.filepath then setdefaultAppend acc r.date r.filename else acc)
          acc, p.2.Pairwise (fun a b : String => a ≤ b) := by
  induction rows with
  | nil =>
    intro acc _ hkeys hvals _ _
    exact ⟨hkeys, hvals⟩
  | cons r rows ih =>
    intro acc hpair hkeys hvals hle hbucket
    have hrel : ∀ r' ∈ rows, chunkOrder r r' := (List.pairwise_cons.mp hpair).1
    have hpair' : rows.Pairwise chunkOrder := (List.pairwise_cons.mp hpair).2
    rw [List.foldl_cons]
    by_cases hex : ex r.filepath
    · rw [if_pos hex]
      apply ih (setdefaultAppend acc r.date r.filename) hpair'
      · -- keys stay strictly descending
        rw [sda_keys]
        by_cases hm : r.date ∈ acc.map Prod.fst
        · rw [if_pos hm]
          exact hkeys
        · rw [if_neg hm]
          rw [List.pairwise_append]
          refine ⟨hkeys, List.pairwise_singleton _ _, ?_⟩
          intro k hk b hb
          rw [List.mem_singleton] at hb
          subst hb
          obtain ⟨p, hp, hpk⟩ := List.mem_map.mp hk
          have h1 : r.date ≤ k := hpk ▸ hle r (List.mem_cons_self _ _) p hp
          have h2 : r.date ≠ k := fun h => hm (h ▸ hk)
          exact lt_of_le_of_ne h1 h2
      · -- buckets stay ascending
        intro q hq
        rcases sda_mem acc r.date r.filename q hq with h1 | ⟨v, hv, hq2⟩ | ⟨hq2, _⟩
        · exact hvals q h1
        · subst hq2
          rw [List.pairwise_append]
          refine ⟨hvals (r.date, v) hv, List.pairwise_singleton _ _, ?_⟩
          intro g hg b hb
          rw [List.mem_singleton] at hb
          subst hb
          exact hbucket r (List.mem_cons_self _ _) (r.date, v) hv rfl g hg
        · subst hq2
          exact List.pairwise_singleton _ _
      · -- later rows still have dates ≤ every key
        intro r' hr' q hq
        rcases sda_mem acc r.date r.filename q hq with h1 | ⟨v, hv, hq2⟩ | ⟨hq2, _⟩
        · exact hle r' (List.mem_cons_of_mem _ hr') q h1
        · subst hq2
          rcases hrel r' hr' with hlt | ⟨heq, _⟩
          · exact le_of_lt hlt
          · exact le_of_eq heq.symm
        · subst hq2
          rcases hrel r' hr' with hlt | ⟨heq, _⟩
          · exact le_of_lt hlt
          · exact le_of_eq heq.symm
      · -- later rows dominate their bucket's filenames
        intro r' hr' q hq hqd
        rcases sda_mem acc r.date r.filename q hq with h1 | ⟨v, hv, hq2⟩ | ⟨hq2, _⟩
        · exact hbucket r' (List.mem_cons_of_mem _ hr') q h1 hqd
        · subst hq2
          intro g hg
          rcases List.mem_append.mp hg with hgv | hgf
          · exact hbucket r' (List.mem_cons_of_mem _ hr') (r.date, v) hv hqd g hgv
          · rw [List.mem_singleton] at hgf
            subst hgf
            rcases hrel r' hr' with hlt | ⟨_, hfn⟩
            · exact absurd (hqd ▸ hlt) (lt_irrefl _)
            · exact hfn
        · subst hq2
          intro g hg
          rw [List.mem_singleton] at hg
          subst hg
          rcases hrel r' hr' with hlt | ⟨_, hfn⟩
          · exact absurd (hqd ▸ hlt) (lt_irrefl _)
          · exact hfn
    · rw [if_neg hex]
      apply ih acc hpair' hkeys hvals
      · intro r' hr' q hq
        exact hle r' (List.mem_cons_of_mem _ hr') q hq
      · intro r' hr' q hq hqd
        exact hbucket r' (List.mem_cons_of_mem _ hr') q hq hqd

/-! ## C4: listing order — dates descending, filenames ascending -/

/-- C4: for every index content (hence regardless of insertion order),
every user and every on-disk state, the mapping returned by
`get_chunks_for_user` lists its dates in strictly descending order and,
within each date, its filenames in ascending order. -/
theorem getChunksForUser_ordered (db : List ChunkRow) (ex : String → Bool)
    (did : String) :
    ((getChunksForUser db ex did).map Prod.fst).Pairwise (fun a b => b < a)
    ∧ ∀ p ∈ getChunksForUser db ex did,
        p.2.Pairwise (fun a b : String => a ≤ b) := by
  unfold getChunksForUser
  apply foldChunks_ordered ex (dbQuery db did) []
  · exact List.sorted_insertionSort chunkOrder _
  · simp
  · simp
  · simp
  · simp
